import Mathlib

/-!
Verification of the OFP classifier example (`src/example/classifier/classifier_main.c`).

The repository is a single example program driving an external fast-path
networking stack (ODP/OFP).  The classification engine itself (class-of-service
registry, match-rule table, classifier evaluation, dispatch queues) lives in
the external library; the specification describes that core at design level.
Accordingly, the engine operations below are modelled from the spec, while the
startup configuration (`build_classifier`, `build_udp_prm`, the `main`
prologue) is embedded directly from the C source.
-/

set_option autoImplicit false

namespace OfpClassifier

/-- Modelled from the spec: match-field selectors.  The source only exercises
ODP_PMR_UDP_DPORT (UDP destination port), the one field the example uses. -/
inductive MatchField where
  | udpDstPort
  deriving DecidableEq, Repr

/-- Modelled from the spec: the parsed header fields of a packet that the
classifier can extract.  The example only needs the UDP destination port,
a 16-bit value. -/
structure PacketFields where
  udpDstPort : Nat
  deriving DecidableEq, Repr

/-- Modelled from the spec: a packet handle carries its ingress interface and
either parsed header fields or a parse failure (`none` = malformed). -/
structure Packet where
  iface : String
  parsed : Option PacketFields
  deriving DecidableEq, Repr

/-- Modelled from the spec: `extract(packet, field)` reads the selected header
field from an already-parsed packet. -/
def extract (f : PacketFields) : MatchField → Nat
  | .udpDstPort => f.udpDstPort

/-- A match rule (PMR): field selector, value, mask, source class, destination
class.  Mirrors the `odp_pmr_param_t` contents built by `build_udp_prm`
together with the source/destination CoS of `odp_cls_pmr_create`. -/
structure MatchRule where
  src : String
  dst : String
  field : MatchField
  value : Nat
  mask : Nat
  deriving DecidableEq, Repr

/-- Modelled from the spec: a rule matches a parsed packet when
`(packet_field & mask) == (value & mask)`. -/
def ruleMatches (f : PacketFields) (r : MatchRule) : Bool :=
  (extract f r.field &&& r.mask) == (r.value &&& r.mask)

/-- The rule table is the ordered list of rules in insertion order; adding a
rule appends.  Modelled from the spec (`add_rule` appends to the ordered rule
list). -/
def RuleTable := List MatchRule

/-- Modelled from the spec: `rules_for(source_class)` produces the rules whose
source class is the given one, in insertion order (a snapshot). -/
def rulesFor (tbl : List MatchRule) (srcClass : String) : List MatchRule :=
  tbl.filter (fun r => r.src == srcClass)

/-- Modelled from the spec: iterate a rule list in order; the first rule that
matches decides the destination class; otherwise keep the current class. -/
def evalRules (f : PacketFields) (cur : String) : List MatchRule → String
  | [] => cur
  | r :: rs => if ruleMatches f r then r.dst else evalRules f cur rs

/-- Modelled from the spec: `evaluate` for a packet already classified into
`srcClass` scans `rules_for srcClass` in insertion order, first match wins,
and returns `srcClass` unchanged when no rule matches. -/
def evaluate (tbl : List MatchRule) (srcClass : String) (f : PacketFields) : String :=
  evalRules f srcClass (rulesFor tbl srcClass)

theorem evalRules_eq_find (f : PacketFields) (cur : String) (rs : List MatchRule) :
    evalRules f cur rs =
      match rs.find? (fun r => ruleMatches f r) with
      | some r => r.dst
      | none => cur := by
  induction rs with
  | nil => rfl
  | cons r rs ih =>
    by_cases h : ruleMatches f r
    · simp [evalRules, List.find?, h]
    · simp only [Bool.not_eq_true] at h
      simp [evalRules, List.find?, h, ih]

theorem evalRules_first_match (f : PacketFields) (cur : String)
    (rs : List MatchRule) (i : Nat) (hi : i < rs.length)
    (hmatch : ruleMatches f (rs.get ⟨i, hi⟩))
    (hfirst : ∀ k (hk : k < i), ¬ ruleMatches f (rs.get ⟨k, Nat.lt_trans hk hi⟩)) :
    evalRules f cur rs = (rs.get ⟨i, hi⟩).dst := by
  induction rs generalizing i with
  | nil => exact absurd hi (Nat.not_lt_zero i)
  | cons r rs ih =>
    cases i with
    | zero =>
      have hm : ruleMatches f r := by simpa using hmatch
      simp [evalRules, hm]
    | succ n =>
      have hr : ¬ ruleMatches f r := hfirst 0 (Nat.succ_pos n)
      simp only [Bool.not_eq_true] at hr
      simp only [evalRules, hr, Bool.false_eq_true, if_false]
      exact ih n (Nat.lt_of_succ_lt_succ hi)
        (by simpa using hmatch)
        (fun k hk => by
          have := hfirst (k + 1) (Nat.succ_lt_succ hk)
          simpa using this)

theorem evalRules_no_match (f : PacketFields) (cur : String)
    (rs : List MatchRule) (hnone : ∀ r ∈ rs, ¬ ruleMatches f r) :
    evalRules f cur rs = cur := by
  induction rs with
  | nil => rfl
  | cons r rs ih =>
    have hr := hnone r (List.mem_cons_self r rs)
    simp only [Bool.not_eq_true] at hr
    simp only [evalRules, hr, Bool.false_eq_true, if_false]
    exact ih (fun r hmem => hnone r (List.mem_cons_of_mem _ hmem))

/-! ## Class-of-Service registry (spec §4.1) -/

/-- Modelled from the spec: registry error kinds for class creation/lookup. -/
inductive RegError where
  | duplicateName
  | notFound
  deriving DecidableEq, Repr

/-- The shared packet pool looked up by name (`odp_pool_lookup(SHM_PKT_POOL_NAME)`
in the source); a single fixed pool handle in the example. -/
def SHM_PKT_POOL : Nat := 0

/-- Modelled from the spec: a registered class of service holds its name, a
fresh identifier, its dispatch queue handle and its buffer-pool handle. -/
structure CosEntry where
  name : String
  id : Nat
  queue : Nat
  pool : Nat
  deriving DecidableEq, Repr

/-- Modelled from the spec: the CoS registry owns the class entries; fresh
identifiers and queue handles come from monotone counters. -/
structure Registry where
  entries : List CosEntry
  nextId : Nat
  nextQueue : Nat
  deriving DecidableEq, Repr

def Registry.empty : Registry := ⟨[], 0, 0⟩

/-- Whether a class name is already registered. -/
def registered (reg : Registry) (name : String) : Bool :=
  reg.entries.any (fun e => e.name == name)

/-- Modelled from the spec: `create_class(name)` fails with `DuplicateNameError`
if the name is registered; otherwise allocates a new dispatch queue and pool
binding and returns a fresh identifier. -/
def create_class (reg : Registry) (name : String) : Except RegError (Nat × Registry) :=
  if registered reg name then .error .duplicateName
  else .ok (reg.nextId,
    { entries := reg.entries ++ [⟨name, reg.nextId, reg.nextQueue, SHM_PKT_POOL⟩],
      nextId := reg.nextId + 1,
      nextQueue := reg.nextQueue + 1 })

/-- Modelled from the spec: `lookup_class(name)` fails with `NotFoundError` if
absent. -/
def lookup_class (reg : Registry) (name : String) : Except RegError Nat :=
  match reg.entries.find? (fun e => e.name == name) with
  | some e => .ok e.id
  | none => .error .notFound

/-- Registry counters dominate every allocated identifier and queue handle. -/
def Registry.WF (reg : Registry) : Prop :=
  (∀ e ∈ reg.entries, e.id < reg.nextId) ∧ (∀ e ∈ reg.entries, e.queue < reg.nextQueue)

/-! ## Interface bindings and the classifier engine (spec §4.3) -/

/-- Modelled from the spec: the single data-path error kind of `classify`. -/
inductive ClassifyError where
  | unboundInterface
  deriving DecidableEq, Repr

/-- Replace the binding for a key, or append it when absent: later bindings
replace earlier ones. -/
def setAssoc {α : Type} : List (String × α) → String → α → List (String × α)
  | [], k, v => [(k, v)]
  | (k2, v2) :: rest, k, v =>
      if k == k2 then (k, v) :: rest else (k2, v2) :: setAssoc rest k v

/-- Modelled from the spec: per-interface default and error class bindings
(`odp_pktio_default_cos_set` / `odp_pktio_error_cos_set` in the source). -/
structure Bindings where
  defaultCos : List (String × String)
  errorCos : List (String × String)
  deriving DecidableEq, Repr

def Bindings.empty : Bindings := ⟨[], []⟩

/-- Set the default class of an interface (`odp_pktio_default_cos_set`). -/
def pktio_default_cos_set (b : Bindings) (iface cos : String) : Bindings :=
  { b with defaultCos := setAssoc b.defaultCos iface cos }

/-- Set the error class of an interface (`odp_pktio_error_cos_set`). -/
def pktio_error_cos_set (b : Bindings) (iface cos : String) : Bindings :=
  { b with errorCos := setAssoc b.errorCos iface cos }

/-- Modelled from the spec: `classify(interface, packet)` looks up the default
class (fails with `UnboundInterfaceError` when none is registered), returns
the error class on parse failure, and otherwise evaluates the rule table
starting from the default class. -/
def classify (b : Bindings) (tbl : List MatchRule) (p : Packet) :
    Except ClassifyError String :=
  match List.lookup p.iface b.defaultCos with
  | none => .error .unboundInterface
  | some dc =>
    match p.parsed with
    | none =>
      match List.lookup p.iface b.errorCos with
      | none => .error .unboundInterface
      | some ec => .ok ec
    | some f => .ok (evaluate tbl dc f)

theorem lookup_setAssoc_self {α : Type} (m : List (String × α)) (k : String) (v : α) :
    List.lookup k (setAssoc m k v) = some v := by
  induction m with
  | nil => simp [setAssoc, List.lookup]
  | cons e rest ih =>
    by_cases h : k == e.1
    · simp [setAssoc, h, List.lookup]
    · simp only [setAssoc]
      rw [if_neg (by simpa using h)]
      simp [List.lookup, h, ih]

theorem lookup_setAssoc_ne {α : Type} (m : List (String × α)) (k k2 : String) (v : α)
    (hne : k2 ≠ k) : List.lookup k2 (setAssoc m k v) = List.lookup k2 m := by
  have h0 : (k2 == k) = false := by simpa using hne
  induction m with
  | nil => simp [setAssoc, List.lookup, h0]
  | cons e rest ih =>
    by_cases h : k == e.1
    · have hk : k = e.1 := by simpa using h
      simp [setAssoc, h, List.lookup, ← hk, h0]
    · simp only [setAssoc]
      rw [if_neg (by simpa using h)]
      by_cases h2 : k2 == e.1
      · simp [List.lookup, h2]
      · simp [List.lookup, h2, ih]

theorem keys_nodup_setAssoc {α : Type} (m : List (String × α)) (k : String) (v : α)
    (hnd : (m.map Prod.fst).Nodup) : ((setAssoc m k v).map Prod.fst).Nodup := by
  induction m with
  | nil => simp [setAssoc]
  | cons e rest ih =>
    simp only [List.map_cons, List.nodup_cons] at hnd
    by_cases h : k == e.1
    · have hk : k = e.1 := by simpa using h
      simp only [setAssoc, if_pos h, List.map_cons, List.nodup_cons]
      exact ⟨by rw [hk]; exact hnd.1, hnd.2⟩
    · simp only [setAssoc]
      rw [if_neg (by simpa using h)]
      simp only [List.map_cons, List.nodup_cons]
      refine ⟨?_, ih hnd.2⟩
      intro hmem
      have hne : k ≠ e.1 := by simpa using h
      -- e.1 occurs among the keys of `setAssoc rest k v`: it is either the new
      -- key `k` or an old key of `rest`; both are excluded.
      clear ih
      induction rest with
      | nil =>
        simp [setAssoc] at hmem
        exact hne hmem.symm
      | cons e2 rest2 ih2 =>
        simp only [List.map_cons, List.nodup_cons, List.mem_cons] at hnd hmem
        by_cases h2 : k == e2.1
        · simp only [setAssoc, if_pos h2, List.map_cons, List.mem_cons] at hmem
          rcases hmem with h3 | h3
          · exact hne h3.symm
          · exact hnd.1 (Or.inr h3)
        · simp only [setAssoc] at hmem
          rw [if_neg (by simpa using h2)] at hmem
          simp only [List.map_cons, List.mem_cons] at hmem
          rcases hmem with h3 | h3
          · exact hnd.1 (Or.inl h3)
          · exact ih2 ⟨fun hm => hnd.1 (Or.inr hm), hnd.2.2⟩ h3

theorem countP_eq_one_of_nodup_keys {α : Type} (m : List (String × α)) (k : String)
    (hnd : (m.map Prod.fst).Nodup) (hmem : k ∈ m.map Prod.fst) :
    m.countP (fun e => e.1 == k) = 1 := by
  induction m with
  | nil => simp at hmem
  | cons e rest ih =>
    simp only [List.map_cons, List.nodup_cons, List.mem_cons] at hnd hmem
    rcases hmem with h | h
    · rw [List.countP_cons]
      have hk : (fun e : String × α => e.1 == k) e = true := by simp [h]
      rw [if_pos hk]
      have : rest.countP (fun e => e.1 == k) = 0 := by
        rw [List.countP_eq_zero]
        intro a ha
        simp only [beq_iff_eq]
        intro hek
        apply hnd.1
        have hmem2 : a.1 ∈ rest.map Prod.fst := List.mem_map_of_mem Prod.fst ha
        rwa [hek, h] at hmem2
      omega
    · rw [List.countP_cons]
      have hk : ¬ ((fun e : String × α => e.1 == k) e = true) := by
        simp only [beq_iff_eq]
        intro hek
        exact hnd.1 (by rwa [← hek] at h)
      rw [if_neg hk]
      simpa using ih hnd.2 h

/-! ## Startup configuration, embedded from `classifier_main.c` -/

/-- `#define TEST_PORT 54321` in the source. -/
def TEST_PORT : Nat := 54321

/-- `build_udp_prm(cos_src, cos_dst)` (classifier_main.c:423-437): one PMR on
`ODP_PMR_UDP_DPORT` with value `TEST_PORT` and mask `0xffff`, redirecting from
`cos_src` to `cos_dst`. -/
def build_udp_prm (cos_src cos_dst : String) : MatchRule :=
  { src := cos_src, dst := cos_dst, field := .udpDstPort,
    value := TEST_PORT, mask := 0xffff }

/-- `build_cos_w_queue(name)` (classifier_main.c:373-404): creates a new
scheduled queue and a CoS using it together with the shared packet pool.
Registry-level effect: `create_class`, which allocates the fresh queue. -/
def build_cos_w_queue (reg : Registry) (name : String) :
    Except RegError (Nat × Registry) :=
  create_class reg name

/-- `build_cos_set_queue(name, queue_cos)` (classifier_main.c:406-421): creates
a CoS bound to an existing queue (the interface slow-path queue) and the shared
packet pool; no new queue is allocated. -/
def build_cos_set_queue (reg : Registry) (name : String) (queue_cos : Nat) :
    Except RegError (Nat × Registry) :=
  if registered reg name then .error .duplicateName
  else .ok (reg.nextId,
    { entries := reg.entries ++ [⟨name, reg.nextId, queue_cos, SHM_PKT_POOL⟩],
      nextId := reg.nextId + 1,
      nextQueue := reg.nextQueue })

/-- The configuration state `build_classifier` accumulates: the CoS registry,
the per-interface bindings and the installed PMR rules in insertion order. -/
structure ClsState where
  reg : Registry
  bindings : Bindings
  rules : List MatchRule
  deriving Repr

/-- One iteration of the `build_classifier` loop (classifier_main.c:335-368)
for interface `ifn`: create the class `cos_default_<ifn>` on the interface
slow-path queue `spq ifn`, bind it as the interface default and error class,
and install the UDP PMR from it to `cos_udp`.  The pktio lookup is modelled as
always succeeding for a configured interface. -/
def build_classifier_step (spq : String → Nat) (st : ClsState) (ifn : String) :
    Except RegError ClsState := do
  let name := "cos_default_" ++ ifn
  let (_, reg2) ← build_cos_set_queue st.reg name (spq ifn)
  let b1 := pktio_default_cos_set st.bindings ifn name
  let b2 := pktio_error_cos_set b1 ifn name
  pure { reg := reg2, bindings := b2,
         rules := st.rules ++ [build_udp_prm name "cos_udp"] }

/-- `build_classifier(if_count, if_names)` (classifier_main.c:320-371): create
the class `cos_udp` with its own queue, then run the per-interface loop. -/
def build_classifier (spq : String → Nat) (if_names : List String) :
    Except RegError ClsState := do
  let (_, reg1) ← build_cos_w_queue Registry.empty "cos_udp"
  if_names.foldlM (build_classifier_step spq)
    { reg := reg1, bindings := Bindings.empty, rules := [] }

/-! ### String helper facts -/

theorem string_append_left_cancel (s t u : String) (h : s ++ t = s ++ u) : t = u := by
  have h2 : (s ++ t).data = (s ++ u).data := by rw [h]
  rw [String.data_append, String.data_append] at h2
  exact String.ext (List.append_cancel_left h2)

theorem cos_default_ne_cos_udp (n : String) : ("cos_default_" ++ n) ≠ "cos_udp" := by
  intro h
  have hlen : ("cos_default_" ++ n).length = ("cos_udp" : String).length := by rw [h]
  rw [String.length_append] at hlen
  have h1 : ("cos_default_" : String).length = 12 := by decide
  have h2 : ("cos_udp" : String).length = 7 := by decide
  omega

theorem lookup_some_mem {α : Type} (m : List (String × α)) (k : String) (v : α)
    (h : List.lookup k m = some v) : k ∈ m.map Prod.fst := by
  induction m with
  | nil => simp [List.lookup] at h
  | cons e rest ih =>
    by_cases h2 : k == e.1
    · have hk : k = e.1 := by simpa using h2
      rw [List.map_cons, hk]
      exact List.mem_cons_self _ _
    · have h3 : (k == e.1) = false := by simpa using h2
      simp only [List.lookup, h3] at h
      rw [List.map_cons]
      exact List.mem_cons_of_mem _ (ih h)

theorem registered_append_single (reg : Registry) (e : CosEntry) (nid nq : Nat) (m : String) :
    registered { entries := reg.entries ++ [e], nextId := nid, nextQueue := nq } m =
      (registered reg m || (e.name == m)) := by
  simp [registered, List.any_append]

theorem build_classifier_step_ok (spq : String → Nat) (st : ClsState) (ifn : String)
    (h : registered st.reg ("cos_default_" ++ ifn) = false) :
    build_classifier_step spq st ifn = .ok
      { reg := { entries := st.reg.entries ++
                   [⟨"cos_default_" ++ ifn, st.reg.nextId, spq ifn, SHM_PKT_POOL⟩],
                 nextId := st.reg.nextId + 1, nextQueue := st.reg.nextQueue },
        bindings := pktio_error_cos_set
          (pktio_default_cos_set st.bindings ifn ("cos_default_" ++ ifn))
          ifn ("cos_default_" ++ ifn),
        rules := st.rules ++ [build_udp_prm ("cos_default_" ++ ifn) "cos_udp"] } := by
  simp [build_classifier_step, build_cos_set_queue, h, bind, Except.bind, pure, Except.pure]

/-- The `build_classifier` per-interface loop succeeds on any list of distinct
interfaces whose default-class names are still free, and produces exactly one
UDP rule per interface, binds each interface's default and error class to
`cos_default_<ifn>`, leaves other interfaces' bindings alone, and keeps the
binding maps duplicate-free. -/
theorem build_loop (spq : String → Nat) (l : List String) :
    ∀ st : ClsState, l.Nodup →
      (∀ n ∈ l, registered st.reg ("cos_default_" ++ n) = false) →
      ∃ st2, List.foldlM (build_classifier_step spq) st l = .ok st2 ∧
        st2.rules = st.rules ++ l.map (fun n => build_udp_prm ("cos_default_" ++ n) "cos_udp") ∧
        (∀ i ∈ l, List.lookup i st2.bindings.defaultCos = some ("cos_default_" ++ i)) ∧
        (∀ i, i ∉ l → List.lookup i st2.bindings.defaultCos = List.lookup i st.bindings.defaultCos) ∧
        (∀ i ∈ l, List.lookup i st2.bindings.errorCos = some ("cos_default_" ++ i)) ∧
        (∀ i, i ∉ l → List.lookup i st2.bindings.errorCos = List.lookup i st.bindings.errorCos) ∧
        ((st.bindings.defaultCos.map Prod.fst).Nodup → (st2.bindings.defaultCos.map Prod.fst).Nodup) ∧
        ((st.bindings.errorCos.map Prod.fst).Nodup → (st2.bindings.errorCos.map Prod.fst).Nodup) := by
  induction l with
  | nil =>
    intro st _ _
    exact ⟨st, rfl, by simp, by simp, fun i _ => rfl, by simp, fun i _ => rfl,
           fun h => h, fun h => h⟩
  | cons n l ih =>
    intro st hnd hfree
    have hn : registered st.reg ("cos_default_" ++ n) = false :=
      hfree n (List.mem_cons_self n l)
    have hstep := build_classifier_step_ok spq st n hn
    set st1 : ClsState :=
      { reg := { entries := st.reg.entries ++
                   [⟨"cos_default_" ++ n, st.reg.nextId, spq n, SHM_PKT_POOL⟩],
                 nextId := st.reg.nextId + 1, nextQueue := st.reg.nextQueue },
        bindings := pktio_error_cos_set
          (pktio_default_cos_set st.bindings n ("cos_default_" ++ n))
          n ("cos_default_" ++ n),
        rules := st.rules ++ [build_udp_prm ("cos_default_" ++ n) "cos_udp"] } with hst1
    have hnodup := List.nodup_cons.mp hnd
    have hfree1 : ∀ m ∈ l, registered st1.reg ("cos_default_" ++ m) = false := by
      intro m hm
      rw [hst1]
      rw [registered_append_single]
      have h1 : registered st.reg ("cos_default_" ++ m) = false :=
        hfree m (List.mem_cons_of_mem n hm)
      have h2 : ("cos_default_" ++ n == "cos_default_" ++ m) = false := by
        rw [beq_eq_false_iff_ne]
        intro heq
        exact hnodup.1 (string_append_left_cancel _ _ _ heq ▸ hm)
      rw [h1, h2]
      rfl
    obtain ⟨st2, hfold, hrules, hdefMem, hdefOut, herrMem, herrOut, hdefNd, herrNd⟩ :=
      ih st1 hnodup.2 hfree1
    refine ⟨st2, ?_, ?_, ?_, ?_, ?_, ?_, ?_, ?_⟩
    · rw [List.foldlM_cons, hstep]
      simpa using hfold
    · rw [hrules, hst1]
      simp
    · intro i hi
      rcases List.mem_cons.mp hi with h | h
      · subst h
        rw [hdefOut i hnodup.1, hst1]
        simp only [pktio_error_cos_set, pktio_default_cos_set]
        exact lookup_setAssoc_self _ _ _
      · exact hdefMem i h
    · intro i hi
      have hi1 : i ∉ l := fun h => hi (List.mem_cons_of_mem n h)
      have hin : i ≠ n := fun h => hi (h ▸ List.mem_cons_self n l)
      rw [hdefOut i hi1, hst1]
      simp only [pktio_error_cos_set, pktio_default_cos_set]
      exact lookup_setAssoc_ne _ _ _ _ hin
    · intro i hi
      rcases List.mem_cons.mp hi with h | h
      · subst h
        rw [herrOut i hnodup.1, hst1]
        simp only [pktio_error_cos_set, pktio_default_cos_set]
        exact lookup_setAssoc_self _ _ _
      · exact herrMem i h
    · intro i hi
      have hi1 : i ∉ l := fun h => hi (List.mem_cons_of_mem n h)
      have hin : i ≠ n := fun h => hi (h ▸ List.mem_cons_self n l)
      rw [herrOut i hi1, hst1]
      simp only [pktio_error_cos_set, pktio_default_cos_set]
      exact lookup_setAssoc_ne _ _ _ _ hin
    · intro hnd0
      apply hdefNd
      rw [hst1]
      simp only [pktio_error_cos_set, pktio_default_cos_set]
      exact keys_nodup_setAssoc _ _ _ hnd0
    · intro hnd0
      apply herrNd
      rw [hst1]
      simp only [pktio_error_cos_set, pktio_default_cos_set]
      exact keys_nodup_setAssoc _ _ _ hnd0

/-- `build_classifier` on distinct interface names succeeds and yields the
configuration state described by the spec scenario. -/
theorem build_classifier_ok (spq : String → Nat) (if_names : List String)
    (hnd : if_names.Nodup) :
    ∃ st, build_classifier spq if_names = .ok st ∧
      st.rules = if_names.map (fun n => build_udp_prm ("cos_default_" ++ n) "cos_udp") ∧
      (∀ i ∈ if_names,
        List.lookup i st.bindings.defaultCos = some ("cos_default_" ++ i) ∧
        List.lookup i st.bindings.errorCos = some ("cos_default_" ++ i)) ∧
      (st.bindings.defaultCos.map Prod.fst).Nodup ∧
      (st.bindings.errorCos.map Prod.fst).Nodup := by
  have hreg1 : build_cos_w_queue Registry.empty "cos_udp" =
      .ok (0, { entries := [⟨"cos_udp", 0, 0, SHM_PKT_POOL⟩], nextId := 1, nextQueue := 1 }) := by
    simp [build_cos_w_queue, create_class, registered, Registry.empty]
  have hfree : ∀ n ∈ if_names,
      registered { entries := [⟨"cos_udp", 0, 0, SHM_PKT_POOL⟩], nextId := 1, nextQueue := 1 }
        ("cos_default_" ++ n) = false := by
    intro n _
    have h2 : (("cos_udp" : String) == "cos_default_" ++ n) = false := by
      rw [beq_eq_false_iff_ne]
      exact fun h => cos_default_ne_cos_udp n h.symm
    simp [registered, h2]
  obtain ⟨st, hfold, hrules, hdefMem, _, herrMem, _, hdefNd, herrNd⟩ :=
    build_loop spq if_names
      { reg := { entries := [⟨"cos_udp", 0, 0, SHM_PKT_POOL⟩], nextId := 1, nextQueue := 1 },
        bindings := Bindings.empty, rules := [] }
      hnd hfree
  refine ⟨st, ?_, by simpa using hrules,
          fun i hi => ⟨hdefMem i hi, herrMem i hi⟩,
          hdefNd (by simp [Bindings.empty]), herrNd (by simp [Bindings.empty])⟩
  rw [build_classifier, hreg1]
  simpa [bind, Except.bind] using hfold

/-- In table (insertion) order, the first rule of the packet's source class
that matches decides the evaluation result. -/
theorem evaluate_first_src_match (f : PacketFields) (src : String) :
    ∀ (tbl : List MatchRule) (i : Nat) (hi : i < tbl.length),
      (tbl.get ⟨i, hi⟩).src = src →
      ruleMatches f (tbl.get ⟨i, hi⟩) →
      (∀ k (hk : k < tbl.length), k < i → (tbl.get ⟨k, hk⟩).src = src →
        ¬ ruleMatches f (tbl.get ⟨k, hk⟩)) →
      evaluate tbl src f = (tbl.get ⟨i, hi⟩).dst := by
  intro tbl
  induction tbl with
  | nil => intro i hi _ _ _; exact absurd hi (Nat.not_lt_zero i)
  | cons r tbl ih =>
    intro i hi hsi hmi hfirst
    cases i with
    | zero =>
      have hr : r.src = src := by simpa using hsi
      have hm : ruleMatches f r := by simpa using hmi
      have hbeq : (r.src == src) = true := by simp [hr]
      simp [evaluate, rulesFor, List.filter_cons, hbeq, evalRules, hm]
    | succ n =>
      have hn : n < tbl.length := Nat.lt_of_succ_lt_succ hi
      have hsi2 : (tbl.get ⟨n, hn⟩).src = src := by simpa using hsi
      have hmi2 : ruleMatches f (tbl.get ⟨n, hn⟩) := by simpa using hmi
      have hfirst2 : ∀ k (hk : k < tbl.length), k < n → (tbl.get ⟨k, hk⟩).src = src →
          ¬ ruleMatches f (tbl.get ⟨k, hk⟩) := by
        intro k hk hkn hs
        have := hfirst (k + 1) (Nat.succ_lt_succ hk) (Nat.succ_lt_succ hkn)
          (by simpa using hs)
        simpa using this
      have hgoal : ((r :: tbl).get ⟨n + 1, hi⟩).dst = (tbl.get ⟨n, hn⟩).dst := by simp
      rw [hgoal]
      by_cases hr : (r.src == src) = true
      · have hnr : ¬ ruleMatches f r :=
          hfirst 0 (Nat.succ_pos tbl.length) (Nat.succ_pos n) (by simpa using hr)
        have hnr2 : ruleMatches f r = false := by
          simpa using hnr
        rw [evaluate, rulesFor, List.filter_cons]
        rw [if_pos hr]
        rw [evalRules, hnr2]
        simp only [Bool.false_eq_true, if_false]
        exact ih n hn hsi2 hmi2 hfirst2
      · have hr2 : (r.src == src) = false := by simpa using hr
        rw [evaluate, rulesFor, List.filter_cons, hr2]
        simp only [Bool.false_eq_true, if_false]
        exact ih n hn hsi2 hmi2 hfirst2

/-- No rule of the packet's source class matches: the class is unchanged. -/
theorem evaluate_no_match (tbl : List MatchRule) (src : String) (f : PacketFields)
    (h : ∀ r ∈ rulesFor tbl src, ¬ ruleMatches f r) :
    evaluate tbl src f = src :=
  evalRules_no_match f src (rulesFor tbl src) h

/-- After `build_classifier`, an interface not in the list contributes no
rules to its default class. -/
theorem rulesFor_map_not_mem (if_names : List String) (i : String) (h : i ∉ if_names) :
    rulesFor (if_names.map (fun n => build_udp_prm ("cos_default_" ++ n) "cos_udp"))
      ("cos_default_" ++ i) = [] := by
  induction if_names with
  | nil => rfl
  | cons n l ihl =>
    have hne : ("cos_default_" ++ n == "cos_default_" ++ i) = false := by
      rw [beq_eq_false_iff_ne]
      intro heq
      exact h (string_append_left_cancel _ _ _ heq ▸ List.mem_cons_self n l)
    have h2 : i ∉ l := fun hm => h (List.mem_cons_of_mem n hm)
    simp only [List.map_cons, rulesFor, List.filter_cons, build_udp_prm, hne]
    simpa [rulesFor, build_udp_prm] using ihl h2

/-- After `build_classifier` on distinct interfaces, each interface's default
class carries exactly its one UDP rule. -/
theorem rulesFor_map_mem (if_names : List String) (i : String)
    (hnd : if_names.Nodup) (hmem : i ∈ if_names) :
    rulesFor (if_names.map (fun n => build_udp_prm ("cos_default_" ++ n) "cos_udp"))
      ("cos_default_" ++ i) = [build_udp_prm ("cos_default_" ++ i) "cos_udp"] := by
  induction if_names with
  | nil => simp at hmem
  | cons n l ihl =>
    have hnodup := List.nodup_cons.mp hnd
    rcases List.mem_cons.mp hmem with h | h
    · subst h
      have hbeq : ("cos_default_" ++ i == "cos_default_" ++ i) = true := by simp
      simp only [List.map_cons, rulesFor, List.filter_cons, build_udp_prm, hbeq]
      have := rulesFor_map_not_mem l i hnodup.1
      simp only [rulesFor, build_udp_prm] at this
      simp [this]
    · have hne : ("cos_default_" ++ n == "cos_default_" ++ i) = false := by
        rw [beq_eq_false_iff_ne]
        intro heq
        exact hnodup.1 (string_append_left_cancel _ _ _ heq ▸ h)
      simp only [List.map_cons, rulesFor, List.filter_cons, build_udp_prm, hne]
      simpa [rulesFor, build_udp_prm] using ihl hnodup.2 h

/-! ## The `main` prologue (classifier_main.c:59-152) -/

/-- The observable actions of `main` in source order. -/
inductive MainStep where
  | parseArgs
  | printMaxIfError
  | odpInitGlobal
  | odpInitLocal
  | printInfo
  | ofpInitGlobal
  | ofpInitLocal
  | buildClassifier
  | startCliThread
  | startWorkers
  | appProcessing
  deriving DecidableEq, Repr

/-- `EXIT_FAILURE` on the target platform. -/
def EXIT_FAILURE : Nat := 1

/-- What `main` does after `parse_args` (classifier_main.c:71-146): the
interface-count guard runs first; only when `if_count <= OFP_FP_INTERFACE_MAX`
does `main` go on to ODP/OFP initialization and classifier construction.
`maxIf` stands for `OFP_FP_INTERFACE_MAX`, a constant of the external OFP
headers; the non-guard path models the run in which every init call succeeds
(each failing init exits even earlier, still after the guard). -/
def main_run (if_count maxIf : Nat) : List MainStep × Option Nat :=
  if maxIf < if_count then
    ([.parseArgs, .printMaxIfError], some EXIT_FAILURE)
  else
    ([.parseArgs, .odpInitGlobal, .odpInitLocal, .printInfo, .ofpInitGlobal,
      .ofpInitLocal, .buildClassifier, .startCliThread, .startWorkers,
      .appProcessing], none)

/-! ## Dispatch queue (spec §4.4) -/

/-- Modelled from the spec: a dispatch queue is an ordered FIFO of items;
the head is the next item to dequeue. -/
abbrev Queue (α : Type) := List α

def emptyQueue {α : Type} : Queue α := []

/-- Modelled from the spec: `enqueue(item)` appends at the tail. -/
def enqueue {α : Type} (q : Queue α) (x : α) : Queue α := q ++ [x]

/-- Modelled from the spec: `dequeue` removes and returns the head item, or
suspends (`none`) when the queue is empty. -/
def dequeue {α : Type} : Queue α → Option (α × Queue α)
  | [] => none
  | x :: q => some (x, q)

/-- Repeatedly dequeue until the queue is empty, collecting the items in
dequeue order. -/
def drainAll {α : Type} : Queue α → List α
  | [] => []
  | x :: q => x :: drainAll q

theorem drainAll_dequeue {α : Type} (q : Queue α) :
    drainAll q = match dequeue q with
      | none => []
      | some (x, q2) => x :: drainAll q2 := by
  cases q <;> rfl

theorem foldl_enqueue {α : Type} (tr : List α) :
    ∀ q : Queue α, tr.foldl enqueue q = q ++ tr := by
  induction tr with
  | nil => intro q; simp
  | cons x tr ih =>
    intro q
    simp only [List.foldl_cons, enqueue, ih, List.append_assoc, List.singleton_append]

theorem drainAll_eq {α : Type} (q : Queue α) : drainAll q = q := by
  induction q with
  | nil => rfl
  | cons x q ih => rw [drainAll, ih]

/-- Modelled from the spec: a trace `tr` is one arbitrary interleaving of the
per-producer enqueue sequences `ls`, with each enqueue atomic: at every step
some producer with items left performs its next enqueue. -/
inductive Interleaving {α : Type} : List (List α) → List α → Prop where
  | empty : ∀ {ls : List (List α)}, (∀ l ∈ ls, l = []) → Interleaving ls []
  | step : ∀ {ls : List (List α)} {x : α} {tr : List α} (i : Fin ls.length)
      (rest : List α), ls.get i = x :: rest →
      Interleaving (ls.set i rest) tr → Interleaving ls (x :: tr)

theorem flatten_eq_nil_of_all_nil {α : Type} (ls : List (List α))
    (h : ∀ l ∈ ls, l = []) : ls.flatten = [] := by
  induction ls with
  | nil => rfl
  | cons l ls ih =>
    rw [List.flatten_cons, h l (List.mem_cons_self l ls),
      ih (fun l2 hl2 => h l2 (List.mem_cons_of_mem l hl2))]
    rfl

/-- An interleaved trace is a permutation of all producers' items together:
every item appears in the trace exactly as often as it was enqueued. -/
theorem interleaving_perm_flatten {α : Type} {ls : List (List α)} {tr : List α}
    (h : Interleaving ls tr) : tr.Perm ls.flatten := by
  induction h with
  | @empty ls hnil => rw [flatten_eq_nil_of_all_nil _ hnil]
  | @step ls x tr i rest hget _ ih =>
    have hset : ls.set i rest = ls.take i ++ rest :: ls.drop (i + 1) := by
      rw [List.set_eq_take_append_cons_drop, if_pos i.isLt]
    have hls : ls = ls.take i ++ (x :: rest) :: ls.drop (i + 1) := by
      conv_lhs => rw [← List.take_append_drop (i : Nat) ls]
      rw [List.drop_eq_getElem_cons i.isLt]
      rw [← List.get_eq_getElem, hget]
    rw [hset] at ih
    have hstep1 : (x :: tr).Perm
        (x :: ((ls.take i).flatten ++ (rest ++ (ls.drop (i + 1)).flatten))) := by
      refine List.Perm.cons x (ih.trans ?_)
      simp [List.flatten_append]
    have hstep2 :
        ((ls.take i).flatten ++ x :: (rest ++ (ls.drop (i + 1)).flatten)).Perm
          (x :: ((ls.take i).flatten ++ (rest ++ (ls.drop (i + 1)).flatten))) :=
      List.perm_middle
    have hstep3 : ls.flatten =
        (ls.take i).flatten ++ x :: (rest ++ (ls.drop (i + 1)).flatten) := by
      conv_lhs => rw [hls]
      simp [List.flatten_append]
    rw [hstep3]
    exact hstep1.trans hstep2.symm

/-- Each producer's own items keep their relative order in the trace. -/
theorem interleaving_sublist {α : Type} {ls : List (List α)} {tr : List α}
    (h : Interleaving ls tr) : ∀ i : Fin ls.length, (ls.get i).Sublist tr := by
  induction h with
  | @empty ls hnil =>
    intro i
    rw [hnil (ls.get i) (ls.get_mem i.1 i.2)]
  | @step ls x tr j rest hget _ ih =>
    intro i
    by_cases hij : i = j
    · subst hij
      rw [hget]
      refine List.Sublist.cons₂ x ?_
      have hi2 : (i : Nat) < (ls.set i rest).length := by simp
      have := ih ⟨i, hi2⟩
      rw [List.get_eq_getElem] at this
      simpa [List.getElem_set_self] using this
    · have hne : (j : Nat) ≠ (i : Nat) := fun hv => hij (Fin.ext hv.symm)
      have hi2 : (i : Nat) < (ls.set j rest).length := by simp
      have := ih ⟨i, hi2⟩
      rw [List.get_eq_getElem] at this
      refine List.Sublist.trans ?_ (List.sublist_cons_self x tr)
      rw [List.get_eq_getElem]
      simpa [List.getElem_set_ne hne] using this

/-! ## Claims -/

/-- C1: for every rule table and packet, when rules R1 (at table index `i`) and
R2 (at table index `j`) of the packet's source class both match the packet,
R1 was inserted before R2 (`i < j`), and R1 is the first matching rule of the
class, evaluation resolves the packet to R1's destination class: rules of the
source class are scanned in insertion order and the first match wins, not
best-match. -/
theorem C1_first_match_wins (tbl : List MatchRule) (src : String) (f : PacketFields)
    (i j : Nat) (hi : i < tbl.length) (hj : j < tbl.length) (_hij : i < j)
    (hsi : (tbl.get ⟨i, hi⟩).src = src) (_hsj : (tbl.get ⟨j, hj⟩).src = src)
    (hmi : ruleMatches f (tbl.get ⟨i, hi⟩)) (_hmj : ruleMatches f (tbl.get ⟨j, hj⟩))
    (hfirst : ∀ k (hk : k < tbl.length), k < i → (tbl.get ⟨k, hk⟩).src = src →
      ¬ ruleMatches f (tbl.get ⟨k, hk⟩)) :
    evaluate tbl src f = (tbl.get ⟨i, hi⟩).dst :=
  evaluate_first_src_match f src tbl i hi hsi hmi hfirst

theorem C1_witness :
    evaluate
      [{ src := "c", dst := "d1", field := .udpDstPort, value := 5, mask := 65535 },
       { src := "c", dst := "d2", field := .udpDstPort, value := 5, mask := 65535 }]
      "c" ⟨5⟩ = "d1" :=
  C1_first_match_wins _ "c" ⟨5⟩ 0 1 (by decide) (by decide) (by decide)
    rfl rfl (by decide) (by decide)
    (fun k _ hk0 _ => absurd hk0 (Nat.not_lt_zero k))

/-- C2: for a packet already classified into `src`, `evaluate` returns the
destination class of the first rule of `rules_for src` whose field satisfies
`(extract(packet, field) & mask) = (value & mask)`, and returns `src`
unchanged when no rule of the class matches. -/
theorem C2_evaluate_returns_first_satisfying (tbl : List MatchRule) (src : String)
    (f : PacketFields) :
    (∀ (i : Nat) (hi : i < (rulesFor tbl src).length),
      (extract f ((rulesFor tbl src).get ⟨i, hi⟩).field &&& ((rulesFor tbl src).get ⟨i, hi⟩).mask)
        = (((rulesFor tbl src).get ⟨i, hi⟩).value &&& ((rulesFor tbl src).get ⟨i, hi⟩).mask) →
      (∀ k (hk : k < i),
        ¬ ((extract f ((rulesFor tbl src).get ⟨k, Nat.lt_trans hk hi⟩).field
              &&& ((rulesFor tbl src).get ⟨k, Nat.lt_trans hk hi⟩).mask)
            = (((rulesFor tbl src).get ⟨k, Nat.lt_trans hk hi⟩).value
              &&& ((rulesFor tbl src).get ⟨k, Nat.lt_trans hk hi⟩).mask))) →
      evaluate tbl src f = ((rulesFor tbl src).get ⟨i, hi⟩).dst) ∧
    ((∀ r ∈ rulesFor tbl src,
        ¬ ((extract f r.field &&& r.mask) = (r.value &&& r.mask))) →
      evaluate tbl src f = src) := by
  constructor
  · intro i hi hmatch hfirst
    refine evalRules_first_match f src (rulesFor tbl src) i hi ?_ ?_
    · simpa [ruleMatches] using hmatch
    · intro k hk
      have := hfirst k hk
      simp only [ruleMatches, beq_iff_eq]
      exact fun h => this h
  · intro hnone
    refine evalRules_no_match f src (rulesFor tbl src) ?_
    intro r hr
    have := hnone r hr
    simp only [ruleMatches, beq_iff_eq]
    exact fun h => this h

theorem C2_witness :
    evaluate [{ src := "c", dst := "d", field := .udpDstPort, value := 5, mask := 65535 }]
      "c" ⟨5⟩ = "d" ∧
    evaluate [{ src := "c", dst := "d", field := .udpDstPort, value := 5, mask := 65535 }]
      "c" ⟨7⟩ = "c" :=
  ⟨(C2_evaluate_returns_first_satisfying _ "c" ⟨5⟩).1 0 (by decide) (by decide)
      (fun k hk => absurd hk (Nat.not_lt_zero k)),
   (C2_evaluate_returns_first_satisfying _ "c" ⟨7⟩).2 (by decide)⟩

/-- C5: classifying a packet from an interface with no registered default
class binding fails with `UnboundInterfaceError`; no default class is
silently assigned. -/
theorem C5_unbound_interface_fails (b : Bindings) (tbl : List MatchRule) (p : Packet)
    (h : List.lookup p.iface b.defaultCos = none) :
    classify b tbl p = .error .unboundInterface := by
  simp [classify, h]

theorem C5_witness :
    classify Bindings.empty [] { iface := "eth9", parsed := some ⟨5⟩ } =
      .error .unboundInterface :=
  C5_unbound_interface_fails Bindings.empty [] _ rfl

/-- C6: when header parsing fails and the interface is bound, classify raises
no error: it returns the interface's error class as the routing decision. -/
theorem C6_parse_failure_routes_to_error_class (b : Bindings) (tbl : List MatchRule)
    (p : Packet) (dc ec : String)
    (hp : p.parsed = none)
    (hd : List.lookup p.iface b.defaultCos = some dc)
    (he : List.lookup p.iface b.errorCos = some ec) :
    classify b tbl p = .ok ec := by
  simp [classify, hd, hp, he]

theorem C6_witness :
    classify ⟨[("eth1", "cos_default_eth1")], [("eth1", "cos_default_eth1")]⟩ []
      { iface := "eth1", parsed := none } = .ok "cos_default_eth1" :=
  C6_parse_failure_routes_to_error_class _ [] _ "cos_default_eth1" "cos_default_eth1"
    rfl (by decide) (by decide)

/-- C3: with distinct configured interfaces, startup installs for each
interface exactly one rule — UDP destination port, value 54321, full 16-bit
mask, from the interface's default class to `cos_udp` — and consequently a
UDP packet with destination port 54321 classifies to `cos_udp`, one with port
12345 to the interface default class, and a malformed packet to the
interface error class (the same `cos_default_<interface>`). -/
theorem C3_startup_configuration (spq : String → Nat) (if_names : List String)
    (i : String) (hnd : if_names.Nodup) (hmem : i ∈ if_names) :
    ∃ st, build_classifier spq if_names = .ok st ∧
      rulesFor st.rules ("cos_default_" ++ i) =
        [{ src := "cos_default_" ++ i, dst := "cos_udp", field := .udpDstPort,
           value := 54321, mask := 0xffff }] ∧
      classify st.bindings st.rules { iface := i, parsed := some ⟨54321⟩ } =
        .ok "cos_udp" ∧
      classify st.bindings st.rules { iface := i, parsed := some ⟨12345⟩ } =
        .ok ("cos_default_" ++ i) ∧
      classify st.bindings st.rules { iface := i, parsed := none } =
        .ok ("cos_default_" ++ i) := by
  obtain ⟨st, hb, hrules, hbind, _, _⟩ := build_classifier_ok spq if_names hnd
  obtain ⟨hd, he⟩ := hbind i hmem
  have hfor : rulesFor st.rules ("cos_default_" ++ i) =
      [build_udp_prm ("cos_default_" ++ i) "cos_udp"] := by
    rw [hrules]
    exact rulesFor_map_mem if_names i hnd hmem
  have hm1 : ruleMatches ⟨54321⟩ (build_udp_prm ("cos_default_" ++ i) "cos_udp") = true := by
    simp [ruleMatches, extract, build_udp_prm, TEST_PORT]
  have hm2 : ruleMatches ⟨12345⟩ (build_udp_prm ("cos_default_" ++ i) "cos_udp") = false := by
    simp only [ruleMatches, extract, build_udp_prm, TEST_PORT]
    decide
  refine ⟨st, hb, ?_, ?_, ?_, ?_⟩
  · rw [hfor]
    rfl
  · simp only [classify, hd]
    rw [evaluate, hfor, evalRules, hm1]
    simp [build_udp_prm]
  · simp only [classify, hd]
    rw [evaluate, hfor, evalRules, hm2]
    simp [evalRules]
  · simp [classify, hd, he]

theorem C3_witness :
    ∃ st, build_classifier (fun _ => 0) ["eth1"] = .ok st ∧
      rulesFor st.rules ("cos_default_" ++ "eth1") =
        [{ src := "cos_default_" ++ "eth1", dst := "cos_udp", field := .udpDstPort,
           value := 54321, mask := 0xffff }] ∧
      classify st.bindings st.rules { iface := "eth1", parsed := some ⟨54321⟩ } =
        .ok "cos_udp" ∧
      classify st.bindings st.rules { iface := "eth1", parsed := some ⟨12345⟩ } =
        .ok ("cos_default_" ++ "eth1") ∧
      classify st.bindings st.rules { iface := "eth1", parsed := none } =
        .ok ("cos_default_" ++ "eth1") :=
  C3_startup_configuration (fun _ => 0) ["eth1"] "eth1" (by decide)
    (List.mem_cons_self "eth1" [])

/-- C4: after `build_classifier` on distinct interfaces, each configured
interface has exactly one default and one error class binding, both the class
named `cos_default_<interface>`; and re-binding an interface replaces its
earlier binding. -/
theorem C4_one_binding_per_interface (spq : String → Nat) (if_names : List String)
    (i : String) (hnd : if_names.Nodup) (hmem : i ∈ if_names) :
    (∃ st, build_classifier spq if_names = .ok st ∧
      List.lookup i st.bindings.defaultCos = some ("cos_default_" ++ i) ∧
      List.lookup i st.bindings.errorCos = some ("cos_default_" ++ i) ∧
      st.bindings.defaultCos.countP (fun e => e.1 == i) = 1 ∧
      st.bindings.errorCos.countP (fun e => e.1 == i) = 1) ∧
    (∀ (b : Bindings) (c1 c2 : String),
      List.lookup i
        (pktio_default_cos_set (pktio_default_cos_set b i c1) i c2).defaultCos = some c2 ∧
      List.lookup i
        (pktio_error_cos_set (pktio_error_cos_set b i c1) i c2).errorCos = some c2) := by
  constructor
  · obtain ⟨st, hb, _, hbind, hndD, hndE⟩ := build_classifier_ok spq if_names hnd
    obtain ⟨hd, he⟩ := hbind i hmem
    refine ⟨st, hb, hd, he, ?_, ?_⟩
    · exact countP_eq_one_of_nodup_keys _ i hndD (lookup_some_mem _ _ _ hd)
    · exact countP_eq_one_of_nodup_keys _ i hndE (lookup_some_mem _ _ _ he)
  · intro b c1 c2
    constructor
    · simp only [pktio_default_cos_set]
      exact lookup_setAssoc_self _ _ _
    · simp only [pktio_error_cos_set]
      exact lookup_setAssoc_self _ _ _

theorem C4_witness :
    (∃ st, build_classifier (fun _ => 7) ["eth1"] = .ok st ∧
      List.lookup "eth1" st.bindings.defaultCos = some ("cos_default_" ++ "eth1") ∧
      List.lookup "eth1" st.bindings.errorCos = some ("cos_default_" ++ "eth1") ∧
      st.bindings.defaultCos.countP (fun e => e.1 == "eth1") = 1 ∧
      st.bindings.errorCos.countP (fun e => e.1 == "eth1") = 1) ∧
    (∀ (b : Bindings) (c1 c2 : String),
      List.lookup "eth1"
        (pktio_default_cos_set (pktio_default_cos_set b "eth1" c1) "eth1" c2).defaultCos =
          some c2 ∧
      List.lookup "eth1"
        (pktio_error_cos_set (pktio_error_cos_set b "eth1" c1) "eth1" c2).errorCos =
          some c2) :=
  C4_one_binding_per_interface (fun _ => 7) ["eth1"] "eth1" (by decide)
    (List.mem_cons_self "eth1" [])

/-- C7: `create_class` on a fresh name returns the fresh identifier together
with a newly allocated queue and the pool binding — the identifier and queue
of the new entry collide with no existing entry — and fails with
`DuplicateNameError` when the name is already registered. -/
theorem C7_create_class_contract (reg : Registry) (name : String) :
    (registered reg name = true → create_class reg name = .error .duplicateName) ∧
    (registered reg name = false → reg.WF →
      ∃ reg2, create_class reg name = .ok (reg.nextId, reg2) ∧
        (∀ e ∈ reg.entries, e.id ≠ reg.nextId) ∧
        (∀ e ∈ reg.entries, e.queue ≠ reg.nextQueue) ∧
        reg2.entries = reg.entries ++ [⟨name, reg.nextId, reg.nextQueue, SHM_PKT_POOL⟩] ∧
        reg2.WF) := by
  constructor
  · intro h
    simp [create_class, h]
  · intro h hwf
    refine ⟨{ entries := reg.entries ++ [⟨name, reg.nextId, reg.nextQueue, SHM_PKT_POOL⟩],
              nextId := reg.nextId + 1, nextQueue := reg.nextQueue + 1 },
            by simp [create_class, h], ?_, ?_, rfl, ?_, ?_⟩
    · intro e he
      exact Nat.ne_of_lt (hwf.1 e he)
    · intro e he
      exact Nat.ne_of_lt (hwf.2 e he)
    · intro e he
      rcases List.mem_append.mp he with h2 | h2
      · exact Nat.lt_trans (hwf.1 e h2) (Nat.lt_succ_self _)
      · rw [List.mem_singleton] at h2
        subst h2
        exact Nat.lt_succ_self _
    · intro e he
      rcases List.mem_append.mp he with h2 | h2
      · exact Nat.lt_trans (hwf.2 e h2) (Nat.lt_succ_self _)
      · rw [List.mem_singleton] at h2
        subst h2
        exact Nat.lt_succ_self _

theorem C7_witness :
    (create_class ⟨[⟨"cos_udp", 0, 0, 0⟩], 1, 1⟩ "cos_udp" = .error .duplicateName) ∧
    (∃ reg2, create_class ⟨[⟨"cos_udp", 0, 0, 0⟩], 1, 1⟩ "cos_default_eth1" =
        .ok (1, reg2) ∧
      (∀ e ∈ [(⟨"cos_udp", 0, 0, 0⟩ : CosEntry)], e.id ≠ 1) ∧
      (∀ e ∈ [(⟨"cos_udp", 0, 0, 0⟩ : CosEntry)], e.queue ≠ 1) ∧
      reg2.entries = [⟨"cos_udp", 0, 0, 0⟩] ++ [⟨"cos_default_eth1", 1, 1, SHM_PKT_POOL⟩] ∧
      reg2.WF) :=
  ⟨(C7_create_class_contract ⟨[⟨"cos_udp", 0, 0, 0⟩], 1, 1⟩ "cos_udp").1 (by decide),
   (C7_create_class_contract ⟨[⟨"cos_udp", 0, 0, 0⟩], 1, 1⟩ "cos_default_eth1").2
     (by decide)
     ⟨by
        intro e he
        rw [List.mem_singleton] at he
        subst he
        decide,
      by
        intro e he
        rw [List.mem_singleton] at he
        subst he
        decide⟩⟩

/-- C8: for a name not yet registered, `create_class(name)` followed by
`lookup_class(name)` on the resulting registry returns exactly the identifier
`create_class` returned. -/
theorem C8_create_lookup_roundtrip (reg : Registry) (name : String) (cid : Nat)
    (reg2 : Registry) (h : registered reg name = false)
    (hc : create_class reg name = .ok (cid, reg2)) :
    lookup_class reg2 name = .ok cid := by
  simp only [create_class, h, Bool.false_eq_true, if_false, Except.ok.injEq,
    Prod.mk.injEq] at hc
  obtain ⟨h1, h2⟩ := hc
  subst h1
  subst h2
  have hnone : reg.entries.find? (fun e => e.name == name) = none := by
    rw [List.find?_eq_none]
    intro e he
    simp only [registered, List.any_eq_false] at h
    exact h e he
  simp [lookup_class, List.find?_append, hnone, List.find?]

theorem C8_witness :
    lookup_class ⟨[⟨"cos_udp", 0, 0, 0⟩] ++ [⟨"cos_default_eth1", 1, 1, SHM_PKT_POOL⟩],
      2, 2⟩ "cos_default_eth1" = .ok 1 :=
  C8_create_lookup_roundtrip ⟨[⟨"cos_udp", 0, 0, 0⟩], 1, 1⟩ "cos_default_eth1" 1 _
    (by decide) rfl

/-- C9: for any per-producer enqueue sequences and any interleaving `tr` of
them (each enqueue atomic), dequeuing the queue built by the interleaved
enqueues yields the items in exactly the arrival order `tr`; the dequeued
items are a permutation of all producers' items — each exactly once, no loss,
no duplication (equal counts) — and each producer's items appear in their own
FIFO order. -/
theorem C9_queue_interleaving {α : Type} [DecidableEq α] (ls : List (List α))
    (tr : List α) (h : Interleaving ls tr) :
    drainAll (tr.foldl enqueue emptyQueue) = tr ∧
    tr.Perm ls.flatten ∧
    (∀ x : α, tr.count x = ls.flatten.count x) ∧
    (∀ i : Fin ls.length, (ls.get i).Sublist tr) := by
  refine ⟨?_, interleaving_perm_flatten h, ?_, interleaving_sublist h⟩
  · rw [foldl_enqueue, drainAll_eq]
    rfl
  · intro x
    exact (interleaving_perm_flatten h).count_eq x

theorem C9_witness :
    drainAll (List.foldl enqueue emptyQueue [1, 3, 2]) = [1, 3, 2] ∧
    List.Perm [1, 3, 2] ([[1, 2], [3]] : List (List Nat)).flatten ∧
    (∀ x : Nat, List.count x [1, 3, 2] = List.count x ([[1, 2], [3]] : List (List Nat)).flatten) ∧
    (∀ i : Fin ([[1, 2], [3]] : List (List Nat)).length,
      (([[1, 2], [3]] : List (List Nat)).get i).Sublist [1, 3, 2]) :=
  C9_queue_interleaving [[1, 2], [3]] [1, 3, 2]
    (.step ⟨0, by decide⟩ [2] rfl
      (.step ⟨1, by decide⟩ [] rfl
        (.step ⟨0, by decide⟩ [] rfl
          (.empty (by decide)))))

/-- C10: when the parsed interface count exceeds `OFP_FP_INTERFACE_MAX`
(`maxIf`), `main` prints the error and exits with `EXIT_FAILURE` right after
argument parsing — before any ODP or OFP initialization and before building
any classifier state. -/
theorem C10_interface_max_guard (if_count maxIf : Nat) (h : maxIf < if_count) :
    main_run if_count maxIf = ([.parseArgs, .printMaxIfError], some EXIT_FAILURE) ∧
    MainStep.odpInitGlobal ∉ (main_run if_count maxIf).1 ∧
    MainStep.odpInitLocal ∉ (main_run if_count maxIf).1 ∧
    MainStep.ofpInitGlobal ∉ (main_run if_count maxIf).1 ∧
    MainStep.ofpInitLocal ∉ (main_run if_count maxIf).1 ∧
    MainStep.buildClassifier ∉ (main_run if_count maxIf).1 := by
  rw [main_run, if_pos h]
  refine ⟨rfl, ?_, ?_, ?_, ?_, ?_⟩ <;> decide

theorem C10_witness :
    main_run 17 16 = ([.parseArgs, .printMaxIfError], some EXIT_FAILURE) ∧
    MainStep.odpInitGlobal ∉ (main_run 17 16).1 ∧
    MainStep.odpInitLocal ∉ (main_run 17 16).1 ∧
    MainStep.ofpInitGlobal ∉ (main_run 17 16).1 ∧
    MainStep.ofpInitLocal ∉ (main_run 17 16).1 ∧
    MainStep.buildClassifier ∉ (main_run 17 16).1 :=
  C10_interface_max_guard 17 16 (by decide)

end OfpClassifier
